import Mathlib

/-!
Verification of the dojo.js burner manager (packages/create-burner).

Shallow embedding of `BurnerManager` (burnerManager.ts) and `prefundAccount`.
Local storage is an association list from string keys to burner storages; a
burner storage is an association list from addresses to burner records,
mirroring the JS objects (which have unique keys; `delete obj[k]` is modelled
by removing every binding of `k`, which agrees with JS on duplicate-free
lists).  External SDK calls (`getNonce`, `execute`, `waitForTransaction`,
`deployAccount`, `getTransactionReceipt`, `emptyAccount`) are modelled by
environment records that decide each call's outcome, and each operation also
returns the list of SDK calls it issued, in order.
-/

namespace DojoBurner

/-- A stored burner record, mirroring the object written at
`storage[address] = ...` in `BurnerManager.create`. -/
structure BurnerRecord where
  chainId : String
  privateKey : String
  publicKey : String
  deployTx : String
  masterAccount : String
  active : Bool
  accountIndex : Option Nat := none
  metadata : Option String := none
deriving DecidableEq

/-- The value stored under the `burners_` chain key: a JS object mapping
burner addresses to records. -/
abbrev BurnerStorage := List (String × BurnerRecord)

/-- The browser local storage: a map from string keys to burner storages. -/
abbrev LocalStorage := List (String × BurnerStorage)

/-- Model of `Storage.get`: first binding of a key, mirroring JS object lookup. -/
def lsGet : LocalStorage → String → Option BurnerStorage
  | [], _ => none
  | (k, v) :: rest, key => if k = key then some v else lsGet rest key

/-- Model of `Storage.set`: overwrite the binding of a key, or append it. -/
def lsSet : LocalStorage → String → BurnerStorage → LocalStorage
  | [], key, v => [(key, v)]
  | (k, w) :: rest, key, v =>
    if k = key then (k, v) :: rest else (k, w) :: lsSet rest key v

/-- Model of `Storage.remove`: drop every binding of a key. -/
def lsRemove : LocalStorage → String → LocalStorage
  | [], _ => []
  | (k, v) :: rest, key =>
    if k = key then lsRemove rest key else (k, v) :: lsRemove rest key

/-- JS object lookup `storage[address]` on a burner storage. -/
def storageGet : BurnerStorage → String → Option BurnerRecord
  | [], _ => none
  | (a, r) :: rest, addr => if a = addr then some r else storageGet rest addr

/-- Mutate the record bound to an address in place (first binding). -/
def storageUpdate : BurnerStorage → String → (BurnerRecord → BurnerRecord) → BurnerStorage
  | [], _, _ => []
  | (a, r) :: rest, addr, f =>
    if a = addr then (a, f r) :: rest else (a, r) :: storageUpdate rest addr f

/-- JS object assignment `storage[address] = r`: overwrite in place when the
key is present, append otherwise. -/
def storageSet (st : BurnerStorage) (addr : String) (r : BurnerRecord) : BurnerStorage :=
  if (storageGet st addr).isSome then storageUpdate st addr (fun _ => r)
  else st ++ [(addr, r)]

/-- JS `delete storage[address]`: drop every binding of the address. -/
def storageRemove : BurnerStorage → String → BurnerStorage
  | [], _ => []
  | (a, r) :: rest, addr =>
    if a = addr then storageRemove rest addr else (a, r) :: storageRemove rest addr

/-- The `for (let addr in storage) storage[addr].active = false` loop. -/
def deactivateAll (st : BurnerStorage) : BurnerStorage :=
  st.map (fun p => (p.1, { p.2 with active := false }))

/-- Constructor arguments of `BurnerManager` that the claims use. -/
structure Config where
  masterAddress : String
  accountClassHash : String
  feeTokenAddress : String

/-- A `new Account(provider, address, privateKey, "1")` value, reduced to the
data this repository supplies to it. -/
structure BurnerAcct where
  address : String
  privateKey : String
deriving DecidableEq

/-- The mutable fields of a `BurnerManager` instance together with the
browser local storage it reads and writes. -/
structure ManagerState where
  ls : LocalStorage
  account : Option BurnerAcct
  isInitialized : Bool
  isDeploying : Bool
  chainId : String

/-- Model of `getBurnerKey()`. -/
def getBurnerKey (chainId : String) : String := "burners_" ++ chainId

/-- Model of `getBurnerStorage()`: `Storage.get(key) || x7b x7d`. -/
def getBurnerStorage (s : ManagerState) : BurnerStorage :=
  (lsGet s.ls (getBurnerKey s.chainId)).getD []

/-- An element of the array returned by `list()`. -/
structure Burner where
  address : String
  active : Bool
  masterAccount : String
  accountIndex : Option Nat
deriving DecidableEq

/-- Model of `BurnerManager.list()`: map the stored records to `Burner` entries, then
keep those whose recorded master account is the current master address. -/
def list (cfg : Config) (s : ManagerState) : List Burner :=
  ((getBurnerStorage s).map (fun p =>
      { address := p.1, active := p.2.active, masterAccount := p.2.masterAccount,
        accountIndex := p.2.accountIndex })).filter
    (fun b => b.masterAccount == cfg.masterAddress)

/-- Model of `BurnerManager.select(address)`. -/
def select (s : ManagerState) (address : String) : Except String Unit × ManagerState :=
  let storage := getBurnerStorage s
  match storageGet storage address with
  | none => (.error "burner not found", s)
  | some r0 =>
    let storage1 := storageUpdate (deactivateAll storage) address
      (fun r => { r with active := true })
    (.ok (),
      { s with ls := lsSet s.ls (getBurnerKey s.chainId) storage1,
               account := some { address := address, privateKey := r0.privateKey } })

/-- Model of `BurnerManager.deselect()`. -/
def deselect (s : ManagerState) : ManagerState :=
  { s with ls := lsSet s.ls (getBurnerKey s.chainId) (deactivateAll (getBurnerStorage s)),
           account := none }

/-- One SDK call issued by the manager, with the outcome the environment gave
it (`none` meaning the call threw). -/
inductive SdkEvent where
  | getNonce (acct : String) (result : Option String)
  | execute (caller contract entrypoint : String) (calldata : List String) (result : Option String)
  | waitForTx (tx : String) (retryInterval : Nat) (result : Option (Option String))
  | acctNonce (result : Option String)
  | deployAcct (addr : String) (result : Option String)
  | receiptCheck (tx : String) (deployed : Bool)
  | emptyAcct (burner master : String) (ok : Bool)
deriving DecidableEq

/-- Environment deciding the outcome of the `emptyAccount` drain for a given
burner address (`emptyAccount` lives outside this manager; `delete` only
observes whether it resolved or threw). -/
structure DeleteEnv where
  emptyOk : String → Bool

/-- Model of `BurnerManager.delete(address)`: returns the SDK calls issued, the
outcome, and the new state. -/
def deleteBurner (env : DeleteEnv) (cfg : Config) (s : ManagerState) (address : String) :
    List SdkEvent × Except String Unit × ManagerState :=
  let storage := getBurnerStorage s
  match storageGet storage address with
  | none => ([], .error "burner not found", s)
  | some _ =>
    let ev := [SdkEvent.emptyAcct address cfg.masterAddress (env.emptyOk address)]
    if env.emptyOk address then
      let storage1 := storageRemove storage address
      let s1 := { s with ls := lsSet s.ls (getBurnerKey s.chainId) storage1 }
      match storage1.head? with
      | some p => (ev, .ok (), (select s1 p.1).2)
      | none => (ev, .ok (), { s1 with account := none })
    else
      -- the catch branch logs the error and returns; storage is untouched
      (ev, .ok (), s)

/-- The body of `clear()`: run `delete` on each address (the JS code fires
them with `Promise.all`; each one's synchronous storage check passes on the
initial snapshot, and only the final state matters to the claims, so they are
folded in order). A rejected `delete` rejects the whole `clear`. -/
def clearLoop (env : DeleteEnv) (cfg : Config) :
    List String → ManagerState → Except String Unit × ManagerState
  | [], s => (.ok (), s)
  | a :: rest, s =>
    match deleteBurner env cfg s a with
    | (_, .error e, s1) => (.error e, s1)
    | (_, .ok _, s1) => clearLoop env cfg rest s1

/-- Model of `BurnerManager.clear()`: delete every stored burner, then remove the
burner key from local storage. -/
def clear (env : DeleteEnv) (cfg : Config) (s : ManagerState) :
    Except String Unit × ManagerState :=
  match clearLoop env cfg ((getBurnerStorage s).map Prod.fst) s with
  | (.error e, s1) => (.error e, s1)
  | (.ok _, s1) => (.ok (), { s1 with ls := lsRemove s1.ls (getBurnerKey s1.chainId) })

/-- Environment for `init()`: the decoded chain id returned by the provider,
the outcome of the `isBurnerDeployed` receipt probe per deploy transaction,
and the drain outcomes for the `clear()` it may perform. -/
structure InitEnv where
  chainId : String
  deployed : String → Bool
  emptyEnv : DeleteEnv

/-- Model of `BurnerManager.init(keepNonDeployed)`. -/
def init (env : InitEnv) (cfg : Config) (keepNonDeployed : Bool) (s : ManagerState) :
    Except String Unit × ManagerState :=
  if s.isInitialized then (.error "BurnerManager is already initialized", s)
  else
    let s1 := { s with chainId := env.chainId }
    let storage := getBurnerStorage s1
    let storage1 := if keepNonDeployed then storage
      else storage.filter (fun p => env.deployed p.2.deployTx)
    if storage1.isEmpty then
      let s2 := (clear env.emptyEnv cfg s1).2
      (.ok (), { s2 with isInitialized := true })
    else
      let s2 := { s1 with ls := lsSet s1.ls (getBurnerKey s1.chainId) storage1 }
      let s3 := match storage1.find? (fun p => p.2.active) with
        | some p => { s2 with account := some { address := p.1, privateKey := p.2.privateKey } }
        | none => s2
      (.ok (), { s3 with isInitialized := true })

/-- The `options` argument of `create()` / `generateKeysAndAddress()`. -/
structure BurnerCreateOptions where
  secret : Option String := none
  index : Option Nat := none
  metadata : Option String := none
  prefundedAmount : Option String := none

/-- The functions this repository calls on the starknet SDK to build keys and
the counterfactual address. `deriveFromSeed` stands for the repository's
`derivePrivateKeyFromSeed` util (see below). -/
structure SdkCrypto where
  randomAddress : String
  deriveFromSeed : String → Nat → String
  getStarkKey : String → String
  compilePublicKey : String → List String
  calculateContractAddressFromHash : String → String → List String → Nat → String

/-- Modelled from the spec: the util `derivePrivateKeyFromSeed`
(packages/create-burner/src/utils/keyDerivation, not present under src/) is,
per the spec, part of the key derivation that is entirely delegated to the
external account-abstraction SDK; it is modelled as a single SDK primitive
applied to the seed and index. -/
def derivePrivateKeyFromSeed (sdk : SdkCrypto) (seed : String) (index : Nat) : String :=
  sdk.deriveFromSeed seed index

/-- Result of `generateKeysAndAddress`. -/
structure BurnerKeys where
  privateKey : String
  publicKey : String
  address : String
deriving DecidableEq

/-- Model of `BurnerManager.generateKeysAndAddress(options)`: a seeded derivation when
a secret is given (`options.index || 0` defaulting the index), a random SDK
key otherwise; public key and counterfactual address from the SDK. -/
def generateKeysAndAddress (sdk : SdkCrypto) (cfg : Config)
    (options : Option BurnerCreateOptions) : BurnerKeys :=
  let privateKey :=
    match options.bind (fun o => o.secret) with
    | some secret =>
      derivePrivateKeyFromSeed sdk secret ((options.bind (fun o => o.index)).getD 0)
    | none => sdk.randomAddress
  let publicKey := sdk.getStarkKey privateKey
  { privateKey := privateKey, publicKey := publicKey,
    address := sdk.calculateContractAddressFromHash publicKey cfg.accountClassHash
      (sdk.compilePublicKey publicKey) 0 }

/-- The constant `PREFUND_AMOUNT`. -/
def PREFUND_AMOUNT : String := "0x2386f26fc10000"

/-- Environment for one `prefundAccount` call: outcome of `getNonce`, of
`execute` (the transfer transaction hash), and of `waitForTransaction`
(`.ok none` is a falsy wait result, `.ok (some r)` a truthy receipt). -/
structure PrefundEnv where
  getNonce : Except String String
  execute : Except String String
  wait : Except String (Option String)

/-- Outcome annotation recorded on the prefund wait event. -/
def waitOutcome : Except String (Option String) → Option (Option String)
  | .error _ => none
  | .ok r => some r

/-- Model of `prefundAccount(address, account, feeTokenAddress, prefundAmount)`:
getNonce, then a single `transfer` execute on the fee token with calldata
`[address, prefundAmount, "0x0"]`, then waitForTransaction on the returned
hash; a falsy wait result throws, a truthy one is returned. Errors are
re-thrown by the catch block unchanged. -/
def prefundAccount (env : PrefundEnv)
    (address accountAddr feeTokenAddress prefundAmount : String) :
    List SdkEvent × Except String String :=
  match env.getNonce with
  | .error e => ([SdkEvent.getNonce accountAddr none], .error e)
  | .ok nonce =>
    match env.execute with
    | .error e =>
      ([SdkEvent.getNonce accountAddr (some nonce),
        SdkEvent.execute accountAddr feeTokenAddress "transfer"
          [address, prefundAmount, "0x0"] none],
       .error e)
    | .ok txHash =>
      let tr := [SdkEvent.getNonce accountAddr (some nonce),
        SdkEvent.execute accountAddr feeTokenAddress "transfer"
          [address, prefundAmount, "0x0"] (some txHash),
        SdkEvent.waitForTx txHash 1000 (waitOutcome env.wait)]
      match env.wait with
      | .error e => (tr, .error e)
      | .ok none => (tr, .error "Transaction did not complete successfully.")
      | .ok (some receipt) => (tr, .ok receipt)

/-- Environment for one `create()` call: the prefund outcomes, the outcome of
`this.account?.getNonce()`, of `burner.deployAccount` (the deploy hash), of
the `isBurnerDeployed` receipt probe, and of the deploy wait. -/
structure CreateEnv where
  prefund : PrefundEnv
  acctNonce : Except String String
  deploy : Except String String
  receiptNonNull : Bool
  waitDeploy : Except String (Option String)

/-- Result of a `create()` call. -/
structure CreateResult where
  trace : List SdkEvent
  result : Except String BurnerAcct
  state : ManagerState

/-- The record `create()` writes at the new burner address. -/
def newRecord (s : ManagerState) (cfg : Config) (keys : BurnerKeys)
    (options : Option BurnerCreateOptions) (deployTx : String) : BurnerRecord :=
  { chainId := s.chainId, privateKey := keys.privateKey, publicKey := keys.publicKey,
    deployTx := deployTx, masterAccount := cfg.masterAddress, active := true,
    accountIndex :=
      match options with
      | some o => if o.secret.isSome then o.index else none
      | none => none,
    metadata := options.bind (fun o => o.metadata) }

/-- The tail of `create()` after a confirmed deploy: deactivate every stored
burner, write the new record, set `this.account`, clear `isDeploying`,
persist, and return the burner. -/
def finishCreate (s : ManagerState) (cfg : Config) (keys : BurnerKeys)
    (options : Option BurnerCreateOptions) (deployTx : String)
    (tr : List SdkEvent) : CreateResult :=
  let storage := storageSet (deactivateAll (getBurnerStorage s)) keys.address
    (newRecord s cfg keys options deployTx)
  let burner : BurnerAcct := { address := keys.address, privateKey := keys.privateKey }
  { trace := tr, result := .ok burner,
    state := { s with ls := lsSet s.ls (getBurnerKey s.chainId) storage,
                      account := some burner, isDeploying := false } }

/-- The deploy half of `create()` starting at `burner.deployAccount`: a
thrown deploy clears `isDeploying` and rethrows; then the receipt probe, and
when it says not yet deployed, the wait (whose falsy result throws). -/
def deployPhase2 (env : CreateEnv) (s : ManagerState) (cfg : Config)
    (keys : BurnerKeys) (options : Option BurnerCreateOptions)
    (pre : List SdkEvent) : CreateResult :=
  match env.deploy with
  | .error e =>
    { trace := pre ++ [SdkEvent.deployAcct keys.address none],
      result := .error e, state := { s with isDeploying := false } }
  | .ok deployTx =>
    let tr0 := pre ++ [SdkEvent.deployAcct keys.address (some deployTx),
      SdkEvent.receiptCheck deployTx env.receiptNonNull]
    if env.receiptNonNull then finishCreate s cfg keys options deployTx tr0
    else
      match env.waitDeploy with
      | .error e =>
        { trace := tr0 ++ [SdkEvent.waitForTx deployTx 100 none],
          result := .error e, state := s }
      | .ok none =>
        { trace := tr0 ++ [SdkEvent.waitForTx deployTx 100 (some none)],
          result := .error "Transaction did not complete successfully.", state := s }
      | .ok (some receipt) =>
        finishCreate s cfg keys options deployTx
          (tr0 ++ [SdkEvent.waitForTx deployTx 100 (some (some receipt))])

/-- The deploy half of `create()`: `this.account?.getNonce()` (only issued
when a burner account is selected; a thrown nonce clears `isDeploying` and
rethrows), then the deploy. -/
def deployPhase (env : CreateEnv) (s : ManagerState) (cfg : Config)
    (keys : BurnerKeys) (options : Option BurnerCreateOptions) : CreateResult :=
  match s.account with
  | none => deployPhase2 env s cfg keys options []
  | some _ =>
    match env.acctNonce with
    | .error e =>
      { trace := [SdkEvent.acctNonce none], result := .error e,
        state := { s with isDeploying := false } }
    | .ok n => deployPhase2 env s cfg keys options [SdkEvent.acctNonce (some n)]

/-- Model of `BurnerManager.create(options)`: the initialization guard, key
generation, the prefund attempt (whose failure is logged, clears
`isDeploying`, and falls through to the deploy), then the deploy phase. -/
def create (env : CreateEnv) (sdk : SdkCrypto) (cfg : Config) (s : ManagerState)
    (options : Option BurnerCreateOptions) : CreateResult :=
  if !s.isInitialized then
    { trace := [], result := .error "BurnerManager is not initialized", state := s }
  else
    let s1 := { s with isDeploying := true }
    let keys := generateKeysAndAddress sdk cfg options
    let amount := (options.bind (fun o => o.prefundedAmount)).getD PREFUND_AMOUNT
    let pf := prefundAccount env.prefund keys.address cfg.masterAddress
      cfg.feeTokenAddress amount
    let s2 := match pf.2 with
      | .error _ => { s1 with isDeploying := false }
      | .ok _ => s1
    let r := deployPhase env s2 cfg keys options
    { trace := pf.1 ++ r.trace, result := r.result, state := r.state }

/-- Model of `BurnerManager.setBurnersFromClipboard()` with `clip` the parsed
clipboard content: find the first active pasted burner, write the pasted
storage, then select that burner when one was active. (A clipboard read or
parse failure rethrows before any write and leaves the state unchanged.) -/
def setBurnersFromClipboard (s : ManagerState) (clip : BurnerStorage) : ManagerState :=
  let activeAddress := (clip.find? (fun p => p.2.active)).map Prod.fst
  let s1 := { s with ls := lsSet s.ls (getBurnerKey s.chainId) clip }
  match activeAddress with
  | none => s1
  | some a => (select s1 a).2

/-! ### Trace predicates for the prefund-before-deploy claim -/

/-- Whether an event is the issuance of the burner `deployAccount` call. -/
def isDeployEvent : SdkEvent → Bool
  | .deployAcct _ _ => true
  | _ => false

/-- Whether a trace contains a `deployAccount` issuance. -/
def containsDeploy (tr : List SdkEvent) : Bool := tr.any isDeployEvent

/-- After a successful transfer returning hash `hsh`: does a successful
wait on that hash occur, strictly followed by a `deployAccount` issuance? -/
def waitOkThenDeploy (hsh : String) : List SdkEvent → Bool
  | [] => false
  | SdkEvent.waitForTx tx _ (some (some _)) :: rest =>
    (tx == hsh && containsDeploy rest) || waitOkThenDeploy hsh rest
  | _ :: rest => waitOkThenDeploy hsh rest

/-- The temporal property of the claim as stated: somewhere in the trace a
`transfer` execute whose calldata carries the destination succeeds with
some hash, later a wait on that hash succeeds, and only after that a
`deployAccount` is issued. -/
def transferCompletedBeforeDeploy (dest : String) : List SdkEvent → Bool
  | [] => false
  | SdkEvent.execute _ _ ep cd (some hsh) :: rest =>
    (ep == "transfer" && cd.any (fun c => c == dest) && waitOkThenDeploy hsh rest)
      || transferCompletedBeforeDeploy dest rest
  | _ :: rest => transferCompletedBeforeDeploy dest rest

/-! ### Sample configurations and environments for the concrete witnesses -/

def cfgSample : Config :=
  { masterAddress := "0xmaster", accountClassHash := "0xclass",
    feeTokenAddress := "0xfee" }

def recSample : BurnerRecord :=
  { chainId := "KATANA", privateKey := "0xkey", publicKey := "0xpubkey",
    deployTx := "0xdtx", masterAccount := "0xmaster", active := true }

def sSample : ManagerState :=
  { ls := [("burners_KATANA", [("0xburner", recSample)])], account := none,
    isInitialized := true, isDeploying := false, chainId := "KATANA" }

def sdkSample : SdkCrypto :=
  { randomAddress := "0xrand",
    deriveFromSeed := fun seed i => seed ++ toString i,
    getStarkKey := fun pk => "0xpub" ++ pk,
    compilePublicKey := fun pk => [pk],
    calculateContractAddressFromHash := fun pub _ _ _ => "0xaddr" ++ pub }

def pfEnvSample : PrefundEnv :=
  { getNonce := .ok "0x1", execute := .ok "0xtransferTx", wait := .ok (some "0xreceipt") }

def delEnvOk : DeleteEnv := { emptyOk := fun _ => true }

def delEnvFail : DeleteEnv := { emptyOk := fun _ => false }

def cEnvAllOk : CreateEnv :=
  { prefund := pfEnvSample, acctNonce := .ok "0x2", deploy := .ok "0xdeployTx",
    receiptNonNull := false, waitDeploy := .ok (some "0xreceipt2") }

/-- Environment in which the prefund transfer is rejected but the deploy
succeeds without waiting. -/
def cEnvPrefundFails : CreateEnv :=
  { prefund := { getNonce := .ok "0x1", execute := .error "rejected",
                 wait := .ok (some "0xreceipt") },
    acctNonce := .ok "0x2", deploy := .ok "0xdeployTx", receiptNonNull := true,
    waitDeploy := .ok (some "0xreceipt2") }

def iEnvSample : InitEnv :=
  { chainId := "KATANA", deployed := fun _ => true, emptyEnv := delEnvOk }

def sUninit : ManagerState := { sSample with isInitialized := false }

/-! ### Lemmas about the storage primitives -/

theorem lsGet_lsSet (ls : LocalStorage) (k : String) (v : BurnerStorage) (k' : String) :
    lsGet (lsSet ls k v) k' = if k' = k then some v else lsGet ls k' := by
  induction ls with
  | nil =>
    by_cases h : k = k'
    · subst h; simp [lsSet, lsGet]
    · simp [lsSet, lsGet, h, Ne.symm h]
  | cons p rest ih =>
    obtain ⟨a, w⟩ := p
    by_cases hak : a = k
    · subst hak
      by_cases h : a = k'
      · subst h; simp [lsSet, lsGet]
      · simp [lsSet, lsGet, h, Ne.symm h]
    · by_cases h : a = k'
      · subst h
        simp [lsSet, lsGet, hak, Ne.symm hak]
      · simp [lsSet, lsGet, hak, h, ih]

theorem lsGet_lsRemove (ls : LocalStorage) (k k' : String) :
    lsGet (lsRemove ls k) k' = if k' = k then none else lsGet ls k' := by
  induction ls with
  | nil => simp [lsRemove, lsGet]
  | cons p rest ih =>
    obtain ⟨a, w⟩ := p
    by_cases hak : a = k
    · subst hak
      by_cases h : a = k'
      · subst h; simp [lsRemove, lsGet, ih]
      · simp [lsRemove, lsGet, h, Ne.symm h, ih]
    · by_cases h : a = k'
      · subst h
        simp [lsRemove, lsGet, hak, Ne.symm hak]
      · simp [lsRemove, lsGet, hak, h, ih]

theorem storageGet_deactivateAll (st : BurnerStorage) (a : String) :
    storageGet (deactivateAll st) a
      = (storageGet st a).map (fun r => { r with active := false }) := by
  induction st with
  | nil => simp [deactivateAll, storageGet]
  | cons p rest ih =>
    obtain ⟨b, r⟩ := p
    by_cases h : b = a
    · simp [deactivateAll, storageGet, h]
    · simp only [deactivateAll, List.map_cons, storageGet, h, if_false]
      simpa [deactivateAll] using ih

theorem storageGet_storageUpdate (st : BurnerStorage) (b : String)
    (f : BurnerRecord → BurnerRecord) (a : String) :
    storageGet (storageUpdate st b f) a
      = if a = b then (storageGet st a).map f else storageGet st a := by
  induction st with
  | nil => simp [storageUpdate, storageGet]
  | cons p rest ih =>
    obtain ⟨c, r⟩ := p
    by_cases hcb : c = b
    · subst hcb
      by_cases h : c = a
      · subst h; simp [storageUpdate, storageGet]
      · simp [storageUpdate, storageGet, h, Ne.symm h]
    · by_cases h : c = a
      · subst h
        simp [storageUpdate, storageGet, hcb, Ne.symm hcb]
      · simp [storageUpdate, storageGet, hcb, h, ih]

theorem storageGet_storageRemove (st : BurnerStorage) (b a : String) :
    storageGet (storageRemove st b) a = if a = b then none else storageGet st a := by
  induction st with
  | nil => simp [storageRemove, storageGet]
  | cons p rest ih =>
    obtain ⟨c, r⟩ := p
    by_cases hcb : c = b
    · subst hcb
      by_cases h : c = a
      · subst h; simp [storageRemove, storageGet, ih]
      · simp [storageRemove, storageGet, h, Ne.symm h, ih]
    · by_cases h : c = a
      · subst h
        simp [storageRemove, storageGet, hcb, Ne.symm hcb]
      · simp [storageRemove, storageGet, hcb, h, ih]

theorem storageGet_append_of_none (st st2 : BurnerStorage) (a : String)
    (h : storageGet st a = none) : storageGet (st ++ st2) a = storageGet st2 a := by
  induction st with
  | nil => simp
  | cons p rest ih =>
    obtain ⟨c, r⟩ := p
    by_cases hca : c = a
    · simp [storageGet, hca] at h
    · simp [storageGet, hca] at h ⊢
      exact ih h

theorem storageGet_storageSet_self (st : BurnerStorage) (a : String) (r : BurnerRecord) :
    storageGet (storageSet st a r) a = some r := by
  unfold storageSet
  cases h : storageGet st a with
  | none =>
    simp [h, storageGet_append_of_none st _ a h, storageGet]
  | some r0 =>
    simp [h, storageGet_storageUpdate]

theorem storageGet_append (st st2 : BurnerStorage) (a : String) :
    storageGet (st ++ st2) a =
      match storageGet st a with
      | some r => some r
      | none => storageGet st2 a := by
  induction st with
  | nil => simp [storageGet]
  | cons p rest ih =>
    obtain ⟨c, r⟩ := p
    by_cases h : c = a
    · simp [storageGet, h]
    · simp [storageGet, h, ih]

theorem storageGet_storageSet_ne (st : BurnerStorage) (a : String) (r : BurnerRecord)
    (a' : String) (h : a' ≠ a) : storageGet (storageSet st a r) a' = storageGet st a' := by
  unfold storageSet
  by_cases hs : (storageGet st a).isSome
  · rw [if_pos hs, storageGet_storageUpdate]
    simp [h]
  · rw [if_neg hs, storageGet_append]
    cases hg : storageGet st a' with
    | some r0 => simp
    | none => simp [storageGet, Ne.symm h]

/-- Number of records marked active in a burner storage. -/
def countActive (st : BurnerStorage) : Nat :=
  (st.filter (fun p => p.2.active)).length

theorem countActive_deactivateAll (st : BurnerStorage) :
    countActive (deactivateAll st) = 0 := by
  induction st with
  | nil => rfl
  | cons p rest ih => simpa [deactivateAll, countActive, List.filter] using ih

theorem countActive_cons (c : String) (r : BurnerRecord) (rest : BurnerStorage) :
    countActive ((c, r) :: rest) = (if r.active then 1 else 0) + countActive rest := by
  by_cases h : r.active <;> simp [countActive, List.filter_cons, h] <;> omega

theorem countActive_storageUpdate_of_zero (st : BurnerStorage) (a : String)
    (f : BurnerRecord → BurnerRecord) (h : countActive st = 0) :
    countActive (storageUpdate st a f) ≤ 1 := by
  induction st with
  | nil => simp [storageUpdate, countActive]
  | cons p rest ih =>
    obtain ⟨c, r⟩ := p
    rw [countActive_cons] at h
    have hact : (if r.active then 1 else 0) = 0 := by omega
    have hrest : countActive rest = 0 := by omega
    by_cases hca : c = a
    · subst hca
      have hup : storageUpdate ((c, r) :: rest) c f = (c, f r) :: rest := by
        simp [storageUpdate]
      rw [hup, countActive_cons, hrest]
      by_cases hfr : (f r).active <;> simp [hfr]
    · have hup : storageUpdate ((c, r) :: rest) a f = (c, r) :: storageUpdate rest a f := by
        simp [storageUpdate, hca]
      rw [hup, countActive_cons, hact]
      simpa using ih hrest

theorem countActive_append_single (st : BurnerStorage) (a : String) (r : BurnerRecord) :
    countActive (st ++ [(a, r)]) = countActive st + (if r.active then 1 else 0) := by
  induction st with
  | nil => by_cases h : r.active <;> simp [countActive, List.filter_cons, h]
  | cons p rest ih =>
    by_cases h : p.2.active <;>
      simp [countActive, List.filter_cons, h] at ih ⊢ <;> omega

theorem countActive_storageSet_of_zero (st : BurnerStorage) (a : String)
    (r : BurnerRecord) (h : countActive st = 0) :
    countActive (storageSet st a r) ≤ 1 := by
  unfold storageSet
  by_cases hs : (storageGet st a).isSome
  · rw [if_pos hs]
    exact countActive_storageUpdate_of_zero st a _ h
  · rw [if_neg hs, countActive_append_single, h]
    by_cases hr : r.active <;> simp [hr]

theorem countActive_storageRemove_le (st : BurnerStorage) (a : String) :
    countActive (storageRemove st a) ≤ countActive st := by
  induction st with
  | nil => simp [storageRemove]
  | cons p rest ih =>
    obtain ⟨c, r⟩ := p
    by_cases hca : c = a
    · by_cases h : r.active <;>
        simp [storageRemove, hca, countActive, List.filter_cons, h] at ih ⊢ <;>
        omega
    · by_cases h : r.active <;>
        simp [storageRemove, hca, countActive, List.filter_cons, h] at ih ⊢ <;>
        omega

theorem countActive_filter_le (st : BurnerStorage) (p : String × BurnerRecord → Bool) :
    countActive (st.filter p) ≤ countActive st := by
  induction st with
  | nil => simp [countActive]
  | cons q rest ih =>
    by_cases hq : p q
    · by_cases h : q.2.active <;>
        simp [countActive, List.filter_cons, hq, h] at ih ⊢ <;> omega
    · by_cases h : q.2.active <;>
        simp [countActive, List.filter_cons, hq, h] at ih ⊢ <;> omega

/-- At most one active burner under every local storage key. -/
def StorageInv (ls : LocalStorage) : Prop :=
  ∀ k st, lsGet ls k = some st → countActive st ≤ 1

theorem storageInv_lsSet (ls : LocalStorage) (k : String) (v : BurnerStorage)
    (hinv : StorageInv ls) (hv : countActive v ≤ 1) : StorageInv (lsSet ls k v) := by
  intro k' st hst
  rw [lsGet_lsSet] at hst
  by_cases h : k' = k
  · simp [h] at hst
    exact hst ▸ hv
  · simp [h] at hst
    exact hinv k' st hst

theorem storageInv_lsRemove (ls : LocalStorage) (k : String)
    (hinv : StorageInv ls) : StorageInv (lsRemove ls k) := by
  intro k' st hst
  rw [lsGet_lsRemove] at hst
  by_cases h : k' = k
  · simp [h] at hst
  · simp [h] at hst
    exact hinv k' st hst

theorem countActive_getBurnerStorage (s : ManagerState) (hinv : StorageInv s.ls) :
    countActive (getBurnerStorage s) ≤ 1 := by
  unfold getBurnerStorage
  cases h : lsGet s.ls (getBurnerKey s.chainId) with
  | none => simp [countActive]
  | some st => simpa using hinv _ st h

theorem storageGet_isSome_of_mem (st : BurnerStorage) (a : String) (r : BurnerRecord)
    (h : (a, r) ∈ st) : (storageGet st a).isSome := by
  induction st with
  | nil => simp at h
  | cons p rest ih =>
    obtain ⟨c, w⟩ := p
    by_cases hca : c = a
    · simp [storageGet, hca]
    · simp at h
      rcases h with h | h
      · exact absurd h.1.symm hca
      · simp [storageGet, hca]
        exact ih h

/-! ### Characterizations of `select` -/

theorem select_eq_of_some (s : ManagerState) (address : String) (r0 : BurnerRecord)
    (h0 : storageGet (getBurnerStorage s) address = some r0) :
    select s address =
      (Except.ok (),
        { s with
          ls := (lsSet s.ls (getBurnerKey s.chainId)
            (storageUpdate (deactivateAll (getBurnerStorage s)) address
              (fun r => { r with active := true }))),
          account := some { address := address, privateKey := r0.privateKey } }) := by
  simp only [select, h0]

theorem select_eq_of_none (s : ManagerState) (address : String)
    (h0 : storageGet (getBurnerStorage s) address = none) :
    select s address = (Except.error "burner not found", s) := by
  simp only [select, h0]

theorem getBurnerStorage_select_some (s : ManagerState) (address : String)
    (r0 : BurnerRecord) (h0 : storageGet (getBurnerStorage s) address = some r0) :
    getBurnerStorage (select s address).2
      = storageUpdate (deactivateAll (getBurnerStorage s)) address
          (fun r => { r with active := true }) := by
  rw [select_eq_of_some s address r0 h0]
  simp [getBurnerStorage, lsGet_lsSet]

theorem storageGet_select_absent (s : ManagerState) (b address : String)
    (h : storageGet (getBurnerStorage s) address = none) :
    storageGet (getBurnerStorage (select s b).2) address = none := by
  cases hg : storageGet (getBurnerStorage s) b with
  | none => rw [select_eq_of_none s b hg]; exact h
  | some r0 =>
    rw [getBurnerStorage_select_some s b r0 hg,
      storageGet_storageUpdate, storageGet_deactivateAll, h]
    by_cases hb : address = b <;> simp [hb]

/-! ### Claim theorems -/

/-- C5: for every storage state, `list()` returns exactly one entry per
stored burner whose recorded masterAccount equals the current master
address, carrying that burner's address, active flag, masterAccount and
accountIndex, and no entry for burners recorded under another master: it
equals a linear filter of the stored records followed by the projection. -/
theorem C5_list_is_filtered_scan (cfg : Config) (s : ManagerState) :
    list cfg s =
      ((getBurnerStorage s).filter
          (fun p => p.2.masterAccount == cfg.masterAddress)).map
        (fun p => { address := p.1, active := p.2.active,
                    masterAccount := p.2.masterAccount,
                    accountIndex := p.2.accountIndex }) := by
  unfold list
  generalize getBurnerStorage s = st
  induction st with
  | nil => rfl
  | cons p rest ih =>
    by_cases h : p.2.masterAccount == cfg.masterAddress <;>
      simp [List.filter_cons, h, ih]

/-- C4: when the address is stored, `select(address)` marks exactly that
burner active and every other stored burner inactive in the persisted
storage, and sets the manager account to that address with its stored
private key; when the address is absent it throws "burner not found" and
leaves the state unchanged. -/
theorem C4_select_spec (s : ManagerState) (address : String) :
    (∀ r0, storageGet (getBurnerStorage s) address = some r0 →
      (select s address).1 = Except.ok () ∧
      (∀ a, storageGet (getBurnerStorage (select s address).2) a
          = (storageGet (getBurnerStorage s) a).map
              (fun r => { r with active := a == address })) ∧
      (select s address).2.account
        = some { address := address, privateKey := r0.privateKey }) ∧
    (storageGet (getBurnerStorage s) address = none →
      (select s address).1 = Except.error "burner not found" ∧
      (select s address).2 = s) := by
  constructor
  · intro r0 h0
    refine ⟨by rw [select_eq_of_some s address r0 h0], ?_,
      by rw [select_eq_of_some s address r0 h0]⟩
    intro a
    rw [getBurnerStorage_select_some s address r0 h0,
      storageGet_storageUpdate, storageGet_deactivateAll]
    by_cases h : a = address
    · subst h
      simp [h0]
    · have hb : (a == address) = false := beq_eq_false_iff_ne.mpr h
      simp only [h, if_false]
      cases hg : storageGet (getBurnerStorage s) a with
      | none => simp
      | some r1 => simp [hb]
  · intro h0
    rw [select_eq_of_none s address h0]
    exact ⟨rfl, rfl⟩

/-- C4 witness: selecting the stored sample burner succeeds and activates
it; selecting an unknown address fails with "burner not found". -/
theorem C4_select_spec_witness :
    (select sSample "0xburner").1 = Except.ok () ∧
    (select sSample "0xburner").2.account
      = some { address := "0xburner", privateKey := "0xkey" } ∧
    (select sSample "0xmissing").1 = Except.error "burner not found" := by
  have h1 := (C4_select_spec sSample "0xburner").1 recSample (by rfl)
  have h2 := (C4_select_spec sSample "0xmissing").2 (by rfl)
  exact ⟨h1.1, h1.2.2, h2.1⟩

/-- C2: `delete(address)` on a stored burner first runs the `emptyAccount`
drain toward the master account; when the drain throws it resolves with the
state unchanged (the burner still stored), when the drain succeeds it
removes the burner from the persisted storage; for an unknown address it
throws "burner not found" without touching anything. -/
theorem C2_delete_spec (env : DeleteEnv) (cfg : Config) (s : ManagerState)
    (address : String) :
    (storageGet (getBurnerStorage s) address = none →
      deleteBurner env cfg s address = ([], Except.error "burner not found", s)) ∧
    (∀ r0, storageGet (getBurnerStorage s) address = some r0 →
      (deleteBurner env cfg s address).1
        = [SdkEvent.emptyAcct address cfg.masterAddress (env.emptyOk address)] ∧
      (deleteBurner env cfg s address).2.1 = Except.ok () ∧
      (env.emptyOk address = false → (deleteBurner env cfg s address).2.2 = s) ∧
      (env.emptyOk address = true →
        storageGet (getBurnerStorage (deleteBurner env cfg s address).2.2) address
          = none)) := by
  constructor
  · intro h0
    simp only [deleteBurner, h0]
  · intro r0 h0
    have hs1 : getBurnerStorage
        { s with ls := (lsSet s.ls (getBurnerKey s.chainId)
            (storageRemove (getBurnerStorage s) address)) }
        = storageRemove (getBurnerStorage s) address := by
      simp [getBurnerStorage, lsGet_lsSet]
    have habs : storageGet (storageRemove (getBurnerStorage s) address) address
        = none := by
      rw [storageGet_storageRemove]
      simp
    by_cases he : env.emptyOk address
    · cases hh : (storageRemove (getBurnerStorage s) address).head? with
      | some p =>
        have hred : deleteBurner env cfg s address
            = ([SdkEvent.emptyAcct address cfg.masterAddress true], Except.ok (),
               (select { s with ls := (lsSet s.ls (getBurnerKey s.chainId)
                  (storageRemove (getBurnerStorage s) address)) } p.1).2) := by
          simp only [deleteBurner, h0, he, hh, if_true]
        refine ⟨by rw [hred, he], by rw [hred], ?_, ?_⟩
        · intro hf
          simp [he] at hf
        · intro _
          rw [hred]
          exact storageGet_select_absent _ p.1 address (by rw [hs1]; exact habs)
      | none =>
        have hred : deleteBurner env cfg s address
            = ([SdkEvent.emptyAcct address cfg.masterAddress true], Except.ok (),
               { s with ls := (lsSet s.ls (getBurnerKey s.chainId)
                  (storageRemove (getBurnerStorage s) address)), account := none }) := by
          simp only [deleteBurner, h0, he, hh, if_true]
        refine ⟨by rw [hred, he], by rw [hred], ?_, ?_⟩
        · intro hf
          simp [he] at hf
        · intro _
          rw [hred]
          simpa [getBurnerStorage, lsGet_lsSet] using habs
    · have he' : env.emptyOk address = false := by simpa using he
      have hred : deleteBurner env cfg s address
          = ([SdkEvent.emptyAcct address cfg.masterAddress false], Except.ok (), s) := by
        simp only [deleteBurner, h0, he', if_false, Bool.false_eq_true]
      refine ⟨by rw [hred, he'], by rw [hred], fun _ => by rw [hred], ?_⟩
      intro ht
      rw [he'] at ht
      cases ht

/-- C2 witness: on the sample state, a failed drain leaves the state
unchanged, a successful drain removes the burner, and an unknown address
yields "burner not found". -/
theorem C2_delete_spec_witness :
    (deleteBurner delEnvFail cfgSample sSample "0xburner").2.2 = sSample ∧
    storageGet
      (getBurnerStorage (deleteBurner delEnvOk cfgSample sSample "0xburner").2.2)
      "0xburner" = none ∧
    deleteBurner delEnvOk cfgSample sSample "0xmissing"
      = ([], Except.error "burner not found", sSample) := by
  have h1 := (C2_delete_spec delEnvFail cfgSample sSample "0xburner").2 recSample (by rfl)
  have h2 := (C2_delete_spec delEnvOk cfgSample sSample "0xburner").2 recSample (by rfl)
  have h3 := (C2_delete_spec delEnvOk cfgSample sSample "0xmissing").1 (by rfl)
  exact ⟨h1.2.2.1 rfl, h2.2.2.2 rfl, h3⟩

/-- C7: `prefundAccount` issues, in order, `getNonce` on the source
account, a single `transfer` execute on the fee-token contract whose
calldata carries the destination address and the amount, and
`waitForTransaction` on the returned hash; it returns the wait result when
that result is truthy and throws when the transaction did not complete
successfully. -/
theorem C7_prefundAccount_spec (env : PrefundEnv)
    (address acct token amount n h : String)
    (hn : env.getNonce = Except.ok n) (hx : env.execute = Except.ok h) :
    (prefundAccount env address acct token amount).1
      = [SdkEvent.getNonce acct (some n),
         SdkEvent.execute acct token "transfer" [address, amount, "0x0"] (some h),
         SdkEvent.waitForTx h 1000 (waitOutcome env.wait)] ∧
    (∀ receipt, env.wait = Except.ok (some receipt) →
      (prefundAccount env address acct token amount).2 = Except.ok receipt) ∧
    (env.wait = Except.ok none →
      (prefundAccount env address acct token amount).2
        = Except.error "Transaction did not complete successfully.") := by
  refine ⟨?_, ?_, ?_⟩
  · cases hw : env.wait with
    | error e => simp [prefundAccount, hn, hx, hw, waitOutcome]
    | ok r => cases r <;> simp [prefundAccount, hn, hx, hw, waitOutcome]
  · intro receipt hw
    simp [prefundAccount, hn, hx, hw]
  · intro hw
    simp [prefundAccount, hn, hx, hw]

/-- C7 witness: on a fully succeeding environment the three SDK calls are
issued in order and the truthy receipt is returned. -/
theorem C7_prefundAccount_spec_witness :
    (prefundAccount pfEnvSample "0xb" "0xmaster" "0xfee" "0x10").1
      = [SdkEvent.getNonce "0xmaster" (some "0x1"),
         SdkEvent.execute "0xmaster" "0xfee" "transfer"
           ["0xb", "0x10", "0x0"] (some "0xtransferTx"),
         SdkEvent.waitForTx "0xtransferTx" 1000 (some (some "0xreceipt"))] ∧
    (prefundAccount pfEnvSample "0xb" "0xmaster" "0xfee" "0x10").2
      = Except.ok "0xreceipt" := by
  have hh := C7_prefundAccount_spec pfEnvSample "0xb" "0xmaster" "0xfee" "0x10"
    "0x1" "0xtransferTx" rfl rfl
  exact ⟨hh.1, hh.2.1 "0xreceipt" rfl⟩

/-- C8: the private key produced by `generateKeysAndAddress` is computed
solely by SDK functions — either the SDK random key or the seeded
derivation primitive applied to the secret and defaulted index — and the
public key and counterfactual address are likewise direct SDK outputs; no
key-derivation logic is implemented in the manager itself. -/
theorem C8_keys_delegated_to_sdk (sdk : SdkCrypto) (cfg : Config)
    (options : Option BurnerCreateOptions) :
    ((generateKeysAndAddress sdk cfg options).privateKey = sdk.randomAddress ∨
      ∃ secret, options.bind (fun o => o.secret) = some secret ∧
        (generateKeysAndAddress sdk cfg options).privateKey
          = sdk.deriveFromSeed secret ((options.bind (fun o => o.index)).getD 0)) ∧
    (generateKeysAndAddress sdk cfg options).publicKey
      = sdk.getStarkKey (generateKeysAndAddress sdk cfg options).privateKey ∧
    (generateKeysAndAddress sdk cfg options).address
      = sdk.calculateContractAddressFromHash
          (generateKeysAndAddress sdk cfg options).publicKey
          cfg.accountClassHash
          (sdk.compilePublicKey (generateKeysAndAddress sdk cfg options).publicKey)
          0 := by
  cases hs : options.bind (fun o => o.secret) with
  | none =>
    refine ⟨Or.inl ?_, ?_, ?_⟩ <;> simp [generateKeysAndAddress, hs]
  | some secret =>
    refine ⟨Or.inr ⟨secret, rfl, ?_⟩, ?_, ?_⟩ <;>
      simp [generateKeysAndAddress, derivePrivateKeyFromSeed, hs]

/-- C10: `create()` throws "BurnerManager is not initialized" whenever the
manager is not yet initialized, `init()` throws "BurnerManager is already
initialized" when run a second time, and in both error cases the manager
state — including its storage — is unchanged. -/
theorem C10_initialization_guard (cenv : CreateEnv) (sdk : SdkCrypto)
    (cfg : Config) (ienv : InitEnv) (keep : Bool) (s : ManagerState)
    (options : Option BurnerCreateOptions) :
    (s.isInitialized = false →
      (create cenv sdk cfg s options).result
        = Except.error "BurnerManager is not initialized" ∧
      (create cenv sdk cfg s options).state = s) ∧
    (s.isInitialized = true →
      (init ienv cfg keep s).1
        = Except.error "BurnerManager is already initialized" ∧
      (init ienv cfg keep s).2 = s) := by
  constructor
  · intro h
    constructor <;> simp [create, h]
  · intro h
    constructor <;> simp [init, h]

/-- C10 witness: on the samples, an uninitialized `create` and a repeated
`init` both fail with their guard errors and leave the state unchanged. -/
theorem C10_initialization_guard_witness :
    ((create cEnvAllOk sdkSample cfgSample sUninit none).result
        = Except.error "BurnerManager is not initialized" ∧
      (create cEnvAllOk sdkSample cfgSample sUninit none).state = sUninit) ∧
    ((init iEnvSample cfgSample false sSample).1
        = Except.error "BurnerManager is already initialized" ∧
      (init iEnvSample cfgSample false sSample).2 = sSample) := by
  have h1 := (C10_initialization_guard cEnvAllOk sdkSample cfgSample iEnvSample
    false sUninit none).1 rfl
  have h2 := (C10_initialization_guard cEnvAllOk sdkSample cfgSample iEnvSample
    false sSample none).2 rfl
  exact ⟨h1, h2⟩

/-! ### Characterization of a successful `create` -/

theorem prefund_no_deploy (env : PrefundEnv) (address acct token amount : String) :
    ∀ e ∈ (prefundAccount env address acct token amount).1, isDeployEvent e = false := by
  cases hn : env.getNonce with
  | error e => simp [prefundAccount, hn, isDeployEvent]
  | ok n =>
    cases hx : env.execute with
    | error e => simp [prefundAccount, hn, hx, isDeployEvent]
    | ok hsh =>
      cases hw : env.wait with
      | error e => simp [prefundAccount, hn, hx, hw, isDeployEvent]
      | ok r => cases r <;> simp [prefundAccount, hn, hx, hw, isDeployEvent]

theorem prefund_ok_shape (env : PrefundEnv) (address acct token amount receipt : String)
    (h : (prefundAccount env address acct token amount).2 = Except.ok receipt) :
    ∃ n hsh, env.getNonce = Except.ok n ∧ env.execute = Except.ok hsh ∧
      env.wait = Except.ok (some receipt) ∧
      (prefundAccount env address acct token amount).1
        = [SdkEvent.getNonce acct (some n),
           SdkEvent.execute acct token "transfer" [address, amount, "0x0"] (some hsh),
           SdkEvent.waitForTx hsh 1000 (some (some receipt))] := by
  cases hn : env.getNonce with
  | error e => simp [prefundAccount, hn] at h
  | ok n =>
    cases hx : env.execute with
    | error e => simp [prefundAccount, hn, hx] at h
    | ok hsh =>
      cases hw : env.wait with
      | error e => simp [prefundAccount, hn, hx, hw] at h
      | ok r =>
        cases r with
        | none => simp [prefundAccount, hn, hx, hw] at h
        | some rc =>
          have hrc : rc = receipt := by simpa [prefundAccount, hn, hx, hw] using h
          subst hrc
          exact ⟨n, hsh, rfl, rfl, rfl, by simp [prefundAccount, hn, hx, hw, waitOutcome]⟩

theorem deployPhase2_ok (env : CreateEnv) (s : ManagerState) (cfg : Config)
    (keys : BurnerKeys) (options : Option BurnerCreateOptions)
    (pre : List SdkEvent) (b : BurnerAcct)
    (h : (deployPhase2 env s cfg keys options pre).result = Except.ok b) :
    ∃ deployTx tr, env.deploy = Except.ok deployTx ∧
      containsDeploy tr = true ∧
      deployPhase2 env s cfg keys options pre
        = finishCreate s cfg keys options deployTx tr := by
  cases hd : env.deploy with
  | error e => simp [deployPhase2, hd] at h
  | ok deployTx =>
    by_cases hr : env.receiptNonNull
    · refine ⟨deployTx, pre ++ [SdkEvent.deployAcct keys.address (some deployTx),
        SdkEvent.receiptCheck deployTx true], rfl, ?_, ?_⟩
      · simp [containsDeploy, List.any_append, isDeployEvent]
      · simp [deployPhase2, hd, hr]
    · have hr' : env.receiptNonNull = false := by simpa using hr
      cases hw : env.waitDeploy with
      | error e => simp [deployPhase2, hd, hr', hw] at h
      | ok r =>
        cases r with
        | none => simp [deployPhase2, hd, hr', hw] at h
        | some receipt =>
          refine ⟨deployTx, (pre ++ [SdkEvent.deployAcct keys.address (some deployTx),
            SdkEvent.receiptCheck deployTx false])
            ++ [SdkEvent.waitForTx deployTx 100 (some (some receipt))], rfl, ?_, ?_⟩
          · simp [containsDeploy, List.any_append, isDeployEvent]
          · simp [deployPhase2, hd, hr', hw]

theorem deployPhase_ok (env : CreateEnv) (s : ManagerState) (cfg : Config)
    (keys : BurnerKeys) (options : Option BurnerCreateOptions) (b : BurnerAcct)
    (h : (deployPhase env s cfg keys options).result = Except.ok b) :
    ∃ deployTx tr, env.deploy = Except.ok deployTx ∧
      containsDeploy tr = true ∧
      deployPhase env s cfg keys options
        = finishCreate s cfg keys options deployTx tr := by
  cases ha : s.account with
  | none =>
    have h2 : (deployPhase2 env s cfg keys options []).result = Except.ok b := by
      simpa [deployPhase, ha] using h
    obtain ⟨dtx, tr, hd, hc, heq⟩ := deployPhase2_ok env s cfg keys options [] b h2
    refine ⟨dtx, tr, hd, hc, ?_⟩
    simpa [deployPhase, ha] using heq
  | some acct =>
    cases hn : env.acctNonce with
    | error e => simp [deployPhase, ha, hn] at h
    | ok nv =>
      have h2 : (deployPhase2 env s cfg keys options
          [SdkEvent.acctNonce (some nv)]).result = Except.ok b := by
        simpa [deployPhase, ha, hn] using h
      obtain ⟨dtx, tr, hd, hc, heq⟩ :=
        deployPhase2_ok env s cfg keys options [SdkEvent.acctNonce (some nv)] b h2
      refine ⟨dtx, tr, hd, hc, ?_⟩
      simpa [deployPhase, ha, hn] using heq

theorem create_eq (env : CreateEnv) (sdk : SdkCrypto) (cfg : Config)
    (s : ManagerState) (options : Option BurnerCreateOptions)
    (hi : s.isInitialized = true) :
    ∃ s2, s2.ls = s.ls ∧ s2.chainId = s.chainId ∧ s2.account = s.account ∧
      create env sdk cfg s options =
        { trace := (prefundAccount env.prefund
              (generateKeysAndAddress sdk cfg options).address cfg.masterAddress
              cfg.feeTokenAddress
              ((options.bind (fun o => o.prefundedAmount)).getD PREFUND_AMOUNT)).1
            ++ (deployPhase env s2 cfg (generateKeysAndAddress sdk cfg options)
                options).trace,
          result := (deployPhase env s2 cfg (generateKeysAndAddress sdk cfg options)
            options).result,
          state := (deployPhase env s2 cfg (generateKeysAndAddress sdk cfg options)
            options).state } := by
  rcases hpf : prefundAccount env.prefund
      (generateKeysAndAddress sdk cfg options).address cfg.masterAddress
      cfg.feeTokenAddress
      ((options.bind (fun o => o.prefundedAmount)).getD PREFUND_AMOUNT)
    with ⟨ptr, pres⟩
  cases pres with
  | error e =>
    refine ⟨{ s with isDeploying := false }, rfl, rfl, rfl, ?_⟩
    simp [create, hi, hpf]
  | ok receipt =>
    refine ⟨{ s with isDeploying := true }, rfl, rfl, rfl, ?_⟩
    simp [create, hi, hpf]

theorem newRecord_congr (s2 s : ManagerState) (cfg : Config) (keys : BurnerKeys)
    (options : Option BurnerCreateOptions) (deployTx : String)
    (h : s2.chainId = s.chainId) :
    newRecord s2 cfg keys options deployTx = newRecord s cfg keys options deployTx := by
  unfold newRecord
  rw [h]

theorem create_ok (env : CreateEnv) (sdk : SdkCrypto) (cfg : Config)
    (s : ManagerState) (options : Option BurnerCreateOptions) (b : BurnerAcct)
    (h : (create env sdk cfg s options).result = Except.ok b) :
    ∃ deployTx tr,
      env.deploy = Except.ok deployTx ∧
      containsDeploy tr = true ∧
      b = { address := (generateKeysAndAddress sdk cfg options).address,
            privateKey := (generateKeysAndAddress sdk cfg options).privateKey } ∧
      (create env sdk cfg s options).trace
        = (prefundAccount env.prefund (generateKeysAndAddress sdk cfg options).address
            cfg.masterAddress cfg.feeTokenAddress
            ((options.bind (fun o => o.prefundedAmount)).getD PREFUND_AMOUNT)).1 ++ tr ∧
      (create env sdk cfg s options).state.ls
        = lsSet s.ls (getBurnerKey s.chainId)
            (storageSet (deactivateAll (getBurnerStorage s))
              (generateKeysAndAddress sdk cfg options).address
              (newRecord s cfg (generateKeysAndAddress sdk cfg options) options deployTx)) ∧
      (create env sdk cfg s options).state.account = some b ∧
      (create env sdk cfg s options).state.chainId = s.chainId := by
  cases hi : s.isInitialized with
  | false => simp [create, hi] at h
  | true =>
    obtain ⟨s2, h2ls, h2chain, h2acct, hcr⟩ := create_eq env sdk cfg s options hi
    rw [hcr] at h
    obtain ⟨dtx, tr, hd, hcd, hdp⟩ :=
      deployPhase_ok env s2 cfg (generateKeysAndAddress sdk cfg options) options b h
    have hgb : getBurnerStorage s2 = getBurnerStorage s := by
      unfold getBurnerStorage
      rw [h2ls, h2chain]
    have hb : b = { address := (generateKeysAndAddress sdk cfg options).address, privateKey := (generateKeysAndAddress sdk cfg options).privateKey } := by
      rw [hdp] at h
      simpa [finishCreate] using h.symm
    refine ⟨dtx, tr, hd, hcd, hb, ?_, ?_, ?_, ?_⟩
    · rw [hcr]
      simp only [hdp, finishCreate]
    · rw [hcr]
      simp only [hdp]
      simp only [finishCreate]
      rw [h2ls, h2chain, hgb,
        newRecord_congr s2 s cfg (generateKeysAndAddress sdk cfg options) options dtx h2chain]
    · rw [hcr]
      simp only [hdp]
      simp only [finishCreate]
      rw [hb]
    · rw [hcr]
      simp only [hdp]
      simp only [finishCreate]
      exact h2chain

/-- C3: every successful `create()` on an initialized manager persists the
new burner to local storage: the generated address maps, in the stored
burner storage, to a record carrying the manager chainId, the generated
private and public keys, the deploy transaction hash and the master account
address, with active set to true; every previously stored burner is marked
inactive; and the manager account field is set to the new burner Account,
which is also the return value. -/
theorem C3_create_persists (env : CreateEnv) (sdk : SdkCrypto) (cfg : Config)
    (s : ManagerState) (options : Option BurnerCreateOptions) (b : BurnerAcct)
    (h : (create env sdk cfg s options).result = Except.ok b) :
    b = { address := (generateKeysAndAddress sdk cfg options).address, privateKey := (generateKeysAndAddress sdk cfg options).privateKey } ∧
    (∃ r1 deployTx, env.deploy = Except.ok deployTx ∧
      storageGet (getBurnerStorage (create env sdk cfg s options).state)
          (generateKeysAndAddress sdk cfg options).address = some r1 ∧
      r1.chainId = s.chainId ∧
      r1.privateKey = (generateKeysAndAddress sdk cfg options).privateKey ∧
      r1.publicKey = (generateKeysAndAddress sdk cfg options).publicKey ∧
      r1.deployTx = deployTx ∧
      r1.masterAccount = cfg.masterAddress ∧
      r1.active = true) ∧
    (∀ a r0, storageGet (getBurnerStorage s) a = some r0 →
      a ≠ (generateKeysAndAddress sdk cfg options).address →
      ∃ r2, storageGet (getBurnerStorage (create env sdk cfg s options).state) a
          = some r2 ∧ r2.active = false) ∧
    (create env sdk cfg s options).state.account = some b := by
  obtain ⟨dtx, tr, hd, hcd, hb, htr, hls, hacct, hchain⟩ :=
    create_ok env sdk cfg s options b h
  have hst : getBurnerStorage (create env sdk cfg s options).state
      = storageSet (deactivateAll (getBurnerStorage s))
          (generateKeysAndAddress sdk cfg options).address
          (newRecord s cfg (generateKeysAndAddress sdk cfg options) options dtx) := by
    unfold getBurnerStorage
    rw [hchain, hls, lsGet_lsSet]
    simp [getBurnerStorage]
  refine ⟨hb,
    ⟨newRecord s cfg (generateKeysAndAddress sdk cfg options) options dtx, dtx, hd,
      ?_, rfl, rfl, rfl, rfl, rfl, rfl⟩, ?_, hacct⟩
  · rw [hst]
    exact storageGet_storageSet_self _ _ _
  · intro a r0 h0 hne
    refine ⟨{ r0 with active := false }, ?_, rfl⟩
    rw [hst, storageGet_storageSet_ne _ _ _ _ hne, storageGet_deactivateAll, h0]
    rfl

/-- C3 witness: on the sample state with an all-succeeding environment,
`create()` stores the generated burner as active and selects it. -/
theorem C3_create_persists_witness :
    (create cEnvAllOk sdkSample cfgSample sSample none).state.account
      = some { address := "0xaddr0xpub0xrand", privateKey := "0xrand" } ∧
    ∃ r1 deployTx, cEnvAllOk.deploy = Except.ok deployTx ∧
      storageGet (getBurnerStorage (create cEnvAllOk sdkSample cfgSample sSample none).state)
        "0xaddr0xpub0xrand" = some r1 ∧
      r1.active = true := by
  have hh := C3_create_persists cEnvAllOk sdkSample cfgSample sSample none
    { address := "0xaddr0xpub0xrand", privateKey := "0xrand" } (by rfl)
  obtain ⟨hb, ⟨r1, dtx, hd, hsg, hc1, hc2, hc3, hc4, hc5, hc6⟩, hold, hacct⟩ := hh
  exact ⟨hacct, r1, dtx, hd, hsg, hc6⟩

/-- C1 counterexample: in an environment where the prefund transfer is
rejected but the deploy succeeds, `create()` still returns successfully
while no completed prefund transfer precedes the deploy issuance in its
call trace — refuting the claim that every successful `create()` has the
prefund transfer executed and completed before `deployAccount` is issued. -/
theorem C1_counterexample :
    (create cEnvPrefundFails sdkSample cfgSample sSample none).result
      = Except.ok { address := "0xaddr0xpub0xrand", privateKey := "0xrand" } ∧
    transferCompletedBeforeDeploy "0xaddr0xpub0xrand"
      (create cEnvPrefundFails sdkSample cfgSample sSample none).trace = false := by
  exact ⟨rfl, rfl⟩

/-- C1 (amended): for every call to `create()` that returns successfully,
the prefund attempt toward the generated burner address is issued and fully
awaited before the `deployAccount` transaction is issued — the deploy is
never issued ahead of the prefund attempt, no deploy issuance occurs among
the prefund events, and whenever the prefund attempt itself succeeded its
completed transfer precedes the deploy issuance; `create()` may, however,
return successfully even when the prefund attempt failed. -/
theorem C1_prefund_before_deploy (env : CreateEnv) (sdk : SdkCrypto) (cfg : Config)
    (s : ManagerState) (options : Option BurnerCreateOptions) (b : BurnerAcct)
    (h : (create env sdk cfg s options).result = Except.ok b) :
    ∃ rest,
      (create env sdk cfg s options).trace
        = (prefundAccount env.prefund (generateKeysAndAddress sdk cfg options).address
            cfg.masterAddress cfg.feeTokenAddress
            ((options.bind (fun o => o.prefundedAmount)).getD PREFUND_AMOUNT)).1 ++ rest ∧
      containsDeploy rest = true ∧
      (∀ e ∈ (prefundAccount env.prefund (generateKeysAndAddress sdk cfg options).address
            cfg.masterAddress cfg.feeTokenAddress
            ((options.bind (fun o => o.prefundedAmount)).getD PREFUND_AMOUNT)).1,
        isDeployEvent e = false) ∧
      (∀ receipt, (prefundAccount env.prefund
            (generateKeysAndAddress sdk cfg options).address
            cfg.masterAddress cfg.feeTokenAddress
            ((options.bind (fun o => o.prefundedAmount)).getD PREFUND_AMOUNT)).2
          = Except.ok receipt →
        transferCompletedBeforeDeploy (generateKeysAndAddress sdk cfg options).address
          (create env sdk cfg s options).trace = true) := by
  obtain ⟨dtx, tr, hd, hcd, hb, htr, hls, hacct, hchain⟩ :=
    create_ok env sdk cfg s options b h
  refine ⟨tr, htr, hcd, prefund_no_deploy _ _ _ _ _, ?_⟩
  intro receipt hok
  obtain ⟨n, hsh, hn, hx, hw, hshape⟩ := prefund_ok_shape _ _ _ _ _ receipt hok
  rw [htr, hshape]
  simp [transferCompletedBeforeDeploy, waitOkThenDeploy, hcd]

/-- C1 witness: on the sample state with an all-succeeding environment, the
amended ordering property holds concretely. -/
theorem C1_prefund_before_deploy_witness :
    ∃ rest,
      (create cEnvAllOk sdkSample cfgSample sSample none).trace
        = (prefundAccount cEnvAllOk.prefund "0xaddr0xpub0xrand" "0xmaster" "0xfee"
            PREFUND_AMOUNT).1 ++ rest ∧
      containsDeploy rest = true ∧
      (∀ e ∈ (prefundAccount cEnvAllOk.prefund "0xaddr0xpub0xrand" "0xmaster" "0xfee"
            PREFUND_AMOUNT).1, isDeployEvent e = false) ∧
      (∀ receipt, (prefundAccount cEnvAllOk.prefund "0xaddr0xpub0xrand" "0xmaster"
            "0xfee" PREFUND_AMOUNT).2 = Except.ok receipt →
        transferCompletedBeforeDeploy "0xaddr0xpub0xrand"
          (create cEnvAllOk sdkSample cfgSample sSample none).trace = true) := by
  exact C1_prefund_before_deploy cEnvAllOk sdkSample cfgSample sSample none
    { address := "0xaddr0xpub0xrand", privateKey := "0xrand" } (by rfl)

/-! ### chainId preservation, for `clear` -/

theorem select_chainId (s : ManagerState) (a : String) :
    (select s a).2.chainId = s.chainId := by
  cases hg : storageGet (getBurnerStorage s) a with
  | none => rw [select_eq_of_none s a hg]
  | some r0 => rw [select_eq_of_some s a r0 hg]

theorem deleteBurner_chainId (env : DeleteEnv) (cfg : Config) (s : ManagerState)
    (a : String) : (deleteBurner env cfg s a).2.2.chainId = s.chainId := by
  cases hg : storageGet (getBurnerStorage s) a with
  | none => simp [deleteBurner, hg]
  | some r0 =>
    by_cases he : env.emptyOk a
    · cases hh : (storageRemove (getBurnerStorage s) a).head? with
      | some p =>
        simp only [deleteBurner, hg, he, hh, if_true]
        rw [select_chainId]
      | none => simp [deleteBurner, hg, he, hh]
    · have he' : env.emptyOk a = false := by simpa using he
      simp [deleteBurner, hg, he']

theorem clearLoop_chainId (env : DeleteEnv) (cfg : Config) (addrs : List String) :
    ∀ s : ManagerState, (clearLoop env cfg addrs s).2.chainId = s.chainId := by
  induction addrs with
  | nil => intro s; rfl
  | cons a rest ih =>
    intro s
    rcases hd : deleteBurner env cfg s a with ⟨tr, res, s1⟩
    have hc : s1.chainId = s.chainId := by
      have hh := deleteBurner_chainId env cfg s a
      rw [hd] at hh
      exact hh
    cases res with
    | error e => simpa [clearLoop, hd] using hc
    | ok u =>
      have hred : clearLoop env cfg (a :: rest) s = clearLoop env cfg rest s1 := by
        simp [clearLoop, hd]
      rw [hred, ih s1, hc]

/-- C6: whenever `clear()` resolves, the burner storage key for the current
chain has been removed from local storage and a subsequent `list()` returns
the empty list — also when the drain performed by the per-burner delete
failed for some burner, since the environment is arbitrary. -/
theorem C6_clear_removes_key (env : DeleteEnv) (cfg : Config) (s : ManagerState)
    (h : (clear env cfg s).1 = Except.ok ()) :
    lsGet (clear env cfg s).2.ls (getBurnerKey s.chainId) = none ∧
    list cfg (clear env cfg s).2 = [] := by
  rcases hcl : clearLoop env cfg ((getBurnerStorage s).map Prod.fst) s with ⟨res, s1⟩
  have hchain : s1.chainId = s.chainId := by
    have hh := clearLoop_chainId env cfg ((getBurnerStorage s).map Prod.fst) s
    rw [hcl] at hh
    exact hh
  cases res with
  | error e => simp [clear, hcl] at h
  | ok u =>
    have hred : clear env cfg s
        = (Except.ok (), { s1 with ls := lsRemove s1.ls (getBurnerKey s1.chainId) }) := by
      simp [clear, hcl]
    constructor
    · rw [hred]
      simp [lsGet_lsRemove, hchain]
    · rw [hred]
      simp [list, getBurnerStorage, lsGet_lsRemove]

/-- C6 witness: on the sample state, with every drain failing, `clear`
still resolves, removes the chain key, and a subsequent `list` is empty. -/
theorem C6_clear_removes_key_witness :
    lsGet (clear delEnvFail cfgSample sSample).2.ls (getBurnerKey "KATANA") = none ∧
    list cfgSample (clear delEnvFail cfgSample sSample).2 = [] := by
  exact C6_clear_removes_key delEnvFail cfgSample sSample (by rfl)

/-! ### Preservation of the at-most-one-active invariant -/

theorem select_state_ls (s : ManagerState) (a : String) (r0 : BurnerRecord)
    (h0 : storageGet (getBurnerStorage s) a = some r0) :
    (select s a).2.ls = lsSet s.ls (getBurnerKey s.chainId)
      (storageUpdate (deactivateAll (getBurnerStorage s)) a
        (fun r => { r with active := true })) := by
  rw [select_eq_of_some s a r0 h0]

theorem select_inv (s : ManagerState) (a : String) (hinv : StorageInv s.ls) :
    StorageInv (select s a).2.ls := by
  cases hg : storageGet (getBurnerStorage s) a with
  | none => rw [select_eq_of_none s a hg]; exact hinv
  | some r0 =>
    rw [select_state_ls s a r0 hg]
    exact storageInv_lsSet _ _ _ hinv
      (countActive_storageUpdate_of_zero _ _ _ (countActive_deactivateAll _))

theorem deselect_inv (s : ManagerState) (hinv : StorageInv s.ls) :
    StorageInv (deselect s).ls := by
  have hred : (deselect s).ls
      = lsSet s.ls (getBurnerKey s.chainId) (deactivateAll (getBurnerStorage s)) := rfl
  rw [hred]
  exact storageInv_lsSet _ _ _ hinv (by simp [countActive_deactivateAll])

theorem finishCreate_inv (s : ManagerState) (cfg : Config) (keys : BurnerKeys)
    (options : Option BurnerCreateOptions) (dtx : String) (tr : List SdkEvent)
    (hinv : StorageInv s.ls) :
    StorageInv (finishCreate s cfg keys options dtx tr).state.ls := by
  have hred : (finishCreate s cfg keys options dtx tr).state.ls
      = lsSet s.ls (getBurnerKey s.chainId)
          (storageSet (deactivateAll (getBurnerStorage s)) keys.address
            (newRecord s cfg keys options dtx)) := rfl
  rw [hred]
  exact storageInv_lsSet _ _ _ hinv
    (countActive_storageSet_of_zero _ _ _ (countActive_deactivateAll _))

theorem deployPhase2_inv (env : CreateEnv) (s : ManagerState) (cfg : Config)
    (keys : BurnerKeys) (options : Option BurnerCreateOptions)
    (pre : List SdkEvent) (hinv : StorageInv s.ls) :
    StorageInv (deployPhase2 env s cfg keys options pre).state.ls := by
  cases hd : env.deploy with
  | error e => simpa [deployPhase2, hd] using hinv
  | ok dtx =>
    by_cases hr : env.receiptNonNull
    · have hred : deployPhase2 env s cfg keys options pre
          = finishCreate s cfg keys options dtx
              (pre ++ [SdkEvent.deployAcct keys.address (some dtx),
                SdkEvent.receiptCheck dtx true]) := by
        simp [deployPhase2, hd, hr]
      rw [hred]
      exact finishCreate_inv _ _ _ _ _ _ hinv
    · have hr' : env.receiptNonNull = false := by simpa using hr
      cases hw : env.waitDeploy with
      | error e => simpa [deployPhase2, hd, hr', hw] using hinv
      | ok r =>
        cases r with
        | none => simpa [deployPhase2, hd, hr', hw] using hinv
        | some receipt =>
          have hred : deployPhase2 env s cfg keys options pre
              = finishCreate s cfg keys options dtx
                  ((pre ++ [SdkEvent.deployAcct keys.address (some dtx),
                    SdkEvent.receiptCheck dtx false])
                  ++ [SdkEvent.waitForTx dtx 100 (some (some receipt))]) := by
            simp [deployPhase2, hd, hr', hw]
          rw [hred]
          exact finishCreate_inv _ _ _ _ _ _ hinv

theorem deployPhase_inv (env : CreateEnv) (s : ManagerState) (cfg : Config)
    (keys : BurnerKeys) (options : Option BurnerCreateOptions)
    (hinv : StorageInv s.ls) :
    StorageInv (deployPhase env s cfg keys options).state.ls := by
  cases ha : s.account with
  | none =>
    have hred : deployPhase env s cfg keys options
        = deployPhase2 env s cfg keys options [] := by
      simp [deployPhase, ha]
    rw [hred]
    exact deployPhase2_inv _ _ _ _ _ _ hinv
  | some acct =>
    cases hn : env.acctNonce with
    | error e => simpa [deployPhase, ha, hn] using hinv
    | ok nv =>
      have hred : deployPhase env s cfg keys options
          = deployPhase2 env s cfg keys options [SdkEvent.acctNonce (some nv)] := by
        simp [deployPhase, ha, hn]
      rw [hred]
      exact deployPhase2_inv _ _ _ _ _ _ hinv

theorem create_inv (env : CreateEnv) (sdk : SdkCrypto) (cfg : Config)
    (s : ManagerState) (options : Option BurnerCreateOptions)
    (hinv : StorageInv s.ls) :
    StorageInv (create env sdk cfg s options).state.ls := by
  cases hi : s.isInitialized with
  | false => simpa [create, hi] using hinv
  | true =>
    obtain ⟨s2, h2ls, h2chain, h2acct, hcr⟩ := create_eq env sdk cfg s options hi
    rw [hcr]
    have hinv2 : StorageInv s2.ls := by rw [h2ls]; exact hinv
    exact deployPhase_inv env s2 cfg _ options hinv2

theorem deleteBurner_inv (env : DeleteEnv) (cfg : Config) (s : ManagerState)
    (a : String) (hinv : StorageInv s.ls) :
    StorageInv (deleteBurner env cfg s a).2.2.ls := by
  cases hg : storageGet (getBurnerStorage s) a with
  | none => simpa [deleteBurner, hg] using hinv
  | some r0 =>
    by_cases he : env.emptyOk a
    · have hinv1 : StorageInv (lsSet s.ls (getBurnerKey s.chainId)
          (storageRemove (getBurnerStorage s) a)) :=
        storageInv_lsSet _ _ _ hinv
          (le_trans (countActive_storageRemove_le _ _)
            (countActive_getBurnerStorage s hinv))
      cases hh : (storageRemove (getBurnerStorage s) a).head? with
      | some p =>
        have hred : (deleteBurner env cfg s a).2.2
            = (select { s with ls := (lsSet s.ls (getBurnerKey s.chainId)
                (storageRemove (getBurnerStorage s) a)) } p.1).2 := by
          simp [deleteBurner, hg, he, hh]
        rw [hred]
        exact select_inv _ p.1 hinv1
      | none =>
        have hred : (deleteBurner env cfg s a).2.2
            = { s with ls := (lsSet s.ls (getBurnerKey s.chainId)
                (storageRemove (getBurnerStorage s) a)), account := none } := by
          simp [deleteBurner, hg, he, hh]
        rw [hred]
        exact hinv1
    · have he' : env.emptyOk a = false := by simpa using he
      simpa [deleteBurner, hg, he'] using hinv

theorem clearLoop_inv (env : DeleteEnv) (cfg : Config) (addrs : List String) :
    ∀ s : ManagerState, StorageInv s.ls → StorageInv (clearLoop env cfg addrs s).2.ls := by
  induction addrs with
  | nil => intro s hinv; exact hinv
  | cons a rest ih =>
    intro s hinv
    rcases hd : deleteBurner env cfg s a with ⟨tr, res, s1⟩
    have hinv1 : StorageInv s1.ls := by
      have hh := deleteBurner_inv env cfg s a hinv
      rw [hd] at hh
      exact hh
    cases res with
    | error e => simpa [clearLoop, hd] using hinv1
    | ok u =>
      have hred : clearLoop env cfg (a :: rest) s = clearLoop env cfg rest s1 := by
        simp [clearLoop, hd]
      rw [hred]
      exact ih s1 hinv1

theorem clear_inv (env : DeleteEnv) (cfg : Config) (s : ManagerState)
    (hinv : StorageInv s.ls) : StorageInv (clear env cfg s).2.ls := by
  rcases hcl : clearLoop env cfg ((getBurnerStorage s).map Prod.fst) s with ⟨res, s1⟩
  have hinv1 : StorageInv s1.ls := by
    have hh := clearLoop_inv env cfg ((getBurnerStorage s).map Prod.fst) s hinv
    rw [hcl] at hh
    exact hh
  cases res with
  | error e => simpa [clear, hcl] using hinv1
  | ok u =>
    have hred : (clear env cfg s).2
        = { s1 with ls := lsRemove s1.ls (getBurnerKey s1.chainId) } := by
      simp [clear, hcl]
    rw [hred]
    exact storageInv_lsRemove _ _ hinv1

theorem init_inv (env : InitEnv) (cfg : Config) (keep : Bool) (s : ManagerState)
    (hinv : StorageInv s.ls) : StorageInv (init env cfg keep s).2.ls := by
  by_cases hi : s.isInitialized
  · simpa [init, hi] using hinv
  · have hi' : s.isInitialized = false := by simpa using hi
    have hinv1 : StorageInv
        (ManagerState.ls { s with isInitialized := false, chainId := env.chainId }) := hinv
    have hc1 : countActive
        (getBurnerStorage { s with isInitialized := false, chainId := env.chainId }) ≤ 1 :=
      countActive_getBurnerStorage _ hinv1
    cases keep with
    | true =>
      simp [init, hi']
      split
      · exact clear_inv _ _ _ hinv1
      · split
        · exact storageInv_lsSet _ _ _ hinv hc1
        · exact storageInv_lsSet _ _ _ hinv hc1
    | false =>
      simp [init, hi']
      split
      · exact clear_inv _ _ _ hinv1
      · split
        · exact storageInv_lsSet _ _ _ hinv
            (le_trans (countActive_filter_le _ _) hc1)
        · exact storageInv_lsSet _ _ _ hinv
            (le_trans (countActive_filter_le _ _) hc1)

theorem clip_inv (s : ManagerState) (clip : BurnerStorage)
    (hinv : StorageInv s.ls) : StorageInv (setBurnersFromClipboard s clip).ls := by
  cases hf : clip.find? (fun p => p.2.active) with
  | none =>
    have hz : countActive clip = 0 := by
      have hall := List.find?_eq_none.mp hf
      unfold countActive
      have hnil : clip.filter (fun p => p.2.active) = [] := by
        rw [List.filter_eq_nil]
        intro p hp
        simpa using hall p hp
      rw [hnil]
      rfl
    have hred : setBurnersFromClipboard s clip
        = { s with ls := lsSet s.ls (getBurnerKey s.chainId) clip } := by
      simp [setBurnersFromClipboard, hf]
    rw [hred]
    exact storageInv_lsSet _ _ _ hinv (by simp [hz])
  | some p =>
    have hmem : p ∈ clip := List.mem_of_find?_eq_some hf
    have hred : setBurnersFromClipboard s clip
        = (select { s with ls := lsSet s.ls (getBurnerKey s.chainId) clip } p.1).2 := by
      simp [setBurnersFromClipboard, hf]
    have hgb1 : getBurnerStorage
        { s with ls := lsSet s.ls (getBurnerKey s.chainId) clip } = clip := by
      simp [getBurnerStorage, lsGet_lsSet]
    have hsome : (storageGet clip p.1).isSome := by
      refine storageGet_isSome_of_mem clip p.1 p.2 ?_
      simpa using hmem
    obtain ⟨r0, hr0⟩ := Option.isSome_iff_exists.mp hsome
    have hr1 : storageGet (getBurnerStorage
        { s with ls := lsSet s.ls (getBurnerKey s.chainId) clip }) p.1 = some r0 := by
      rw [hgb1]
      exact hr0
    -- the clipboard content may itself carry several active burners, so the
    -- intermediate write can violate the bound at the chain key; the final
    -- select overwrites that key with a normalized storage, so argue on the
    -- final state per key instead of through an intermediate invariant
    rw [hred, select_state_ls _ p.1 r0 hr1]
    intro k st hst
    rw [lsGet_lsSet] at hst
    by_cases hk : k = getBurnerKey
        (ManagerState.chainId { s with ls := lsSet s.ls (getBurnerKey s.chainId) clip })
    · rw [if_pos hk] at hst
      cases hst
      exact countActive_storageUpdate_of_zero _ _ _ (countActive_deactivateAll _)
    · rw [if_neg hk] at hst
      have hst2 : lsGet (lsSet s.ls (getBurnerKey s.chainId) clip) k = some st := hst
      rw [lsGet_lsSet] at hst2
      have hk2 : ¬(k = getBurnerKey s.chainId) := hk
      rw [if_neg hk2] at hst2
      exact hinv k st hst2

/-- C9: at-most-one-active invariant — starting from any local storage in
which at most one burner is active (under every key), each of the
storage-writing operations `select`, `deselect`, `create`, `delete`, `init`
and `setBurnersFromClipboard` leaves a local storage in which at most one
burner is active. -/
theorem C9_at_most_one_active (cenv : CreateEnv) (sdk : SdkCrypto) (cfg : Config)
    (denv : DeleteEnv) (ienv : InitEnv) (keep : Bool) (s : ManagerState)
    (a : String) (clip : BurnerStorage) (options : Option BurnerCreateOptions)
    (hinv : StorageInv s.ls) :
    StorageInv (select s a).2.ls ∧
    StorageInv (deselect s).ls ∧
    StorageInv (create cenv sdk cfg s options).state.ls ∧
    StorageInv (deleteBurner denv cfg s a).2.2.ls ∧
    StorageInv (init ienv cfg keep s).2.ls ∧
    StorageInv (setBurnersFromClipboard s clip).ls :=
  ⟨select_inv s a hinv, deselect_inv s hinv, create_inv cenv sdk cfg s options hinv,
    deleteBurner_inv denv cfg s a hinv, init_inv ienv cfg keep s hinv,
    clip_inv s clip hinv⟩

/-- C9 witness: the invariant is preserved by every operation on the sample
state — whose storage has exactly one active burner — including pasting a
clipboard that carries two active burners. -/
theorem C9_at_most_one_active_witness :
    StorageInv (select sSample "0xburner").2.ls ∧
    StorageInv (deselect sSample).ls ∧
    StorageInv (create cEnvAllOk sdkSample cfgSample sSample none).state.ls ∧
    StorageInv (deleteBurner delEnvOk cfgSample sSample "0xburner").2.2.ls ∧
    StorageInv (init iEnvSample cfgSample false sSample).2.ls ∧
    StorageInv (setBurnersFromClipboard sSample
      [("0xb1", recSample), ("0xb2", recSample)]).ls := by
  refine C9_at_most_one_active cEnvAllOk sdkSample cfgSample delEnvOk iEnvSample
    false sSample "0xburner" [("0xb1", recSample), ("0xb2", recSample)] none ?_
  intro k st hst
  simp only [sSample, lsGet] at hst
  by_cases hk : ("burners_KATANA" : String) = k
  · rw [if_pos hk] at hst
    cases hst
    decide
  · rw [if_neg hk] at hst
    cases hst

end DojoBurner
